import Mathlib

/-!
Shallow embedding of the car-recommendation scoring engine
(`expert_system.py`): the attribute normalizer (`normalize_series`),
the axis computer (`compute_axes`), the budget parser
(`parse_budget_input`) and the ranking engine (`recommend`).

Tabular data is modelled as a `Table`: a row count together with named
numeric columns (`List (Option ℚ)`, `none` standing for a missing /
non-coercible cell, i.e. pandas `NaN`) and named string columns
(`List (Option String)`, `none` standing for `NaN` in an object column).
Machine floats are modelled by exact rationals.
-/

namespace CarRec

/-- Minimum of a list of rationals, mirroring `pandas.Series.min` on the
median-filled series (the empty case is unreachable in `normalize_series`). -/
def listMin : List ℚ → ℚ
  | [] => 0
  | [x] => x
  | x :: y :: rest => min x (listMin (y :: rest))

/-- Maximum of a list of rationals, mirroring `pandas.Series.max`. -/
def listMax : List ℚ → ℚ
  | [] => 0
  | [x] => x
  | x :: y :: rest => max x (listMax (y :: rest))

/-- Median of a list of rationals, as `pandas.Series.median` computes it on
the present values: sort, take the middle element (odd length) or the mean
of the two middle elements (even length). -/
def medianList (l : List ℚ) : ℚ :=
  let sorted := l.mergeSort (fun a b => a ≤ b)
  let n := l.length
  if n % 2 = 1 then sorted.getD (n / 2) 0
  else (sorted.getD (n / 2 - 1) 0 + sorted.getD (n / 2) 0) / 2

/-- `normalize_series` from `expert_system.py`: coercion to numeric is
modelled upstream (cells are already `Option ℚ`); if every value is
missing, return all zeros; otherwise fill missing values with the median
of the present ones, and linearly rescale to `[0,1]` unless the filled
column is constant, in which case return all zeros. -/
def normalize_series (s : List (Option ℚ)) : List ℚ :=
  if s.all Option.isNone then List.replicate s.length 0
  else
    let present := s.filterMap id
    let med := medianList present
    let filled := s.map (fun o => o.getD med)
    let mn := listMin filled
    let mx := listMax filled
    if mx = mn then List.replicate s.length 0
    else filled.map (fun v => (v - mn) / (mx - mn))

/-- A data frame: named numeric columns and named string (object) columns
over a fixed number of rows.  `none` cells are pandas `NaN`. -/
structure Table where
  nrows : ℕ
  ncols : List (String × List (Option ℚ))
  scols : List (String × List (Option String))
  deriving DecidableEq, Repr

instance {ε α : Type} [DecidableEq ε] [DecidableEq α] : DecidableEq (Except ε α) := fun a b =>
  match a, b with
  | Except.ok x, Except.ok y =>
    if h : x = y then isTrue (by rw [h]) else isFalse (by simp [h])
  | Except.error x, Except.error y =>
    if h : x = y then isTrue (by rw [h]) else isFalse (by simp [h])
  | Except.ok _, Except.error _ => isFalse (by simp)
  | Except.error _, Except.ok _ => isFalse (by simp)

/-- Replace the binding of `k` in an association list (keeping its
position), or append a new binding — pandas column assignment. -/
def setPair {α : Type} (k : String) (v : α) : List (String × α) → List (String × α)
  | [] => [(k, v)]
  | (k₁, v₁) :: rest => if k₁ = k then (k, v) :: rest else (k₁, v₁) :: setPair k v rest

/-- Look up a numeric column. -/
def getN (t : Table) (c : String) : Option (List (Option ℚ)) :=
  t.ncols.lookup c

/-- Look up a string column. -/
def getS (t : Table) (c : String) : Option (List (Option String)) :=
  t.scols.lookup c

/-- Numeric column with the empty-list default (used only under a
presence check, as `df[c]` in the source). -/
def getND (t : Table) (c : String) : List (Option ℚ) :=
  (getN t c).getD []

/-- `c in df.columns` for the numeric columns. -/
def hasN (t : Table) (c : String) : Bool :=
  (getN t c).isSome

/-- Set (or add) a numeric column. -/
def setN (t : Table) (c : String) (v : List (Option ℚ)) : Table :=
  { t with ncols := setPair c v t.ncols }

/-- Set (or add) a string column. -/
def setS (t : Table) (c : String) (v : List (Option String)) : Table :=
  { t with scols := setPair c v t.scols }

/-- Well-formedness: every column has exactly `nrows` cells. -/
def wfT (t : Table) : Bool :=
  t.ncols.all (fun p => p.2.length = t.nrows) &&
    t.scols.all (fun p => p.2.length = t.nrows)

/-- Row-wise arithmetic mean of a nonempty family of total columns,
as `pd.concat([...], axis=1).mean(axis=1)` computes it when no cell is
missing (the normalizer's output never is). -/
def meanRows (cols : List (List ℚ)) (n : ℕ) : List ℚ :=
  (List.range n).map (fun i => (cols.map (fun c => c.getD i 0)).sum / (cols.length : ℚ))

/-- The mean-based axis of `compute_axes`: normalize each contributing
column that is present in the table independently, take the row-wise
mean; a constant-zero column when none is present. -/
def axisFromCols (t : Table) (srcs : List String) : List ℚ :=
  let present := srcs.filter (fun c => hasN t c)
  if present = [] then List.replicate t.nrows 0
  else meanRows (present.map (fun c => normalize_series (getND t c))) t.nrows

/-- `Series.fillna` with an optional value (`fillna(NaN)` is a no-op,
which is what `fillna(median)` does on an all-missing column). -/
def fillnaCol (col : List (Option ℚ)) (v : Option ℚ) : List (Option ℚ) :=
  match v with
  | none => col
  | some x => col.map (fun o => some (o.getD x))

/-- `Series.median` with NaN skipping: `none` when no value is present. -/
def colMedian (col : List (Option ℚ)) : Option ℚ :=
  let p := col.filterMap id
  if p = [] then none else some (medianList p)

/-- The inverted axes of `compute_axes`
(`1.0 - normalize_series(df[c].fillna(df[c].median()))`), with the
constant-zero column when the source column is absent. -/
def invAxis (t : Table) (c : String) : List ℚ :=
  match getN t c with
  | none => List.replicate t.nrows 0
  | some col => (normalize_series (fillnaCol col (colMedian col))).map (fun x => 1 - x)

def perfSrcCols : List String := ["power_bhp", "torque_nm", "top_speed_kmph"]
def ecoSrcCols : List String := ["mileage_value", "range_km_est"]
def safetySrcCols : List String := ["airbags_num", "adas_level_num"]
def comfortSrcCols : List String := ["sunroof_yes", "cruise_control_yes", "ground_clearance_mm"]

/-- `compute_axes` from `expert_system.py`: add the six axis columns
(performance, economy, safety, comfort, ownership, price) computed from
whichever contributing raw columns are present.  The `pd.to_numeric`
pass over the twelve raw columns is the identity here because numeric
columns are already `Option ℚ`. -/
def compute_axes (t : Table) : Table :=
  let perf_norm := axisFromCols t perfSrcCols
  let eco_norm := axisFromCols t ecoSrcCols
  let safety_norm := axisFromCols t safetySrcCols
  let comfort_norm := axisFromCols t comfortSrcCols
  let ownership_norm := invAxis t "service_cost_per_year_avg"
  let price_axis := invAxis t "price_inr"
  let t₁ := setN t "axis_performance" (perf_norm.map some)
  let t₂ := setN t₁ "axis_economy" (eco_norm.map some)
  let t₃ := setN t₂ "axis_safety" (safety_norm.map some)
  let t₄ := setN t₃ "axis_comfort" (comfort_norm.map some)
  let t₅ := setN t₄ "axis_ownership" (ownership_norm.map some)
  setN t₅ "axis_price" (price_axis.map some)

/-- Python `str.strip`: drop whitespace from both ends. -/
def pyStrip (cs : List Char) : List Char :=
  ((cs.dropWhile Char.isWhitespace).reverse.dropWhile Char.isWhitespace).reverse

/-- `str(s).strip().lower().replace(",", "").replace("₹", "")` from
`parse_budget_input` (lower-casing maps neither comma nor the rupee sign,
so the replacements commute with it). -/
def pyClean (s : String) : List Char :=
  ((pyStrip s.data).map Char.toLower).filter (fun c => !(c == ',' || c == '₹'))

def startsWithL : List Char → List Char → Bool
  | _, [] => true
  | [], _ :: _ => false
  | a :: as, b :: bs => a == b && startsWithL as bs

/-- Python `pat in hay` substring containment. -/
def containsSubL : List Char → List Char → Bool
  | [], pat => pat.isEmpty
  | hay@(_ :: rest), pat => startsWithL hay pat || containsSubL rest pat

/-- Python `hay.endswith(pat)`. -/
def endsWithL (hay pat : List Char) : Bool :=
  startsWithL hay.reverse pat.reverse

def natOfDigits (ds : List Char) : ℕ :=
  ds.foldl (fun a c => 10 * a + (c.toNat - 48)) 0

/-- The value matched by the regex `[-+]?[0-9]*\.?[0-9]+` at the head of
`cs` (with its backtracking semantics: the fractional part is taken only
when a digit follows the dot), or `none` when it does not match here. -/
def matchNumAt (cs : List Char) : Option ℚ :=
  let sr : ℚ × List Char :=
    match cs with
    | '+' :: r => (1, r)
    | '-' :: r => (-1, r)
    | _ => (1, cs)
  let ds := sr.2.takeWhile Char.isDigit
  let rest₂ := sr.2.dropWhile Char.isDigit
  match rest₂ with
  | '.' :: r₃ =>
    let fs := r₃.takeWhile Char.isDigit
    if fs ≠ [] then
      some (sr.1 * ((natOfDigits ds : ℚ) + (natOfDigits fs : ℚ) / (10 : ℚ) ^ fs.length))
    else if ds ≠ [] then some (sr.1 * (natOfDigits ds : ℚ))
    else none
  | _ => if ds ≠ [] then some (sr.1 * (natOfDigits ds : ℚ)) else none

/-- `re.findall(r"[-+]?[0-9]*\.?[0-9]+", s)[0]` as a value: the number
matched at the leftmost position where the pattern matches. -/
def findFirstNum : List Char → Option ℚ
  | [] => none
  | c :: rest =>
    match matchNumAt (c :: rest) with
    | some v => some v
    | none => findFirstNum rest

/-- Optional exponent suffix of a Python float literal (`e`/`E`, sign,
digits); `none` when trailing characters remain. -/
def parseExp (v : ℚ) (cs : List Char) : Option ℚ :=
  match cs with
  | [] => some v
  | e :: r =>
    if e == 'e' || e == 'E' then
      let sr : ℤ × List Char :=
        match r with
        | '+' :: rr => (1, rr)
        | '-' :: rr => (-1, rr)
        | _ => (1, r)
      let ds := sr.2.takeWhile Char.isDigit
      let r₂ := sr.2.dropWhile Char.isDigit
      if ds ≠ [] ∧ r₂ = [] then
        let ex := sr.1 * (natOfDigits ds : ℤ)
        some (if 0 ≤ ex then v * 10 ^ ex.toNat else v / 10 ^ (-ex).toNat)
      else none
    else none

/-- Python `float(s)` on a decimal literal: optional surrounding
whitespace, optional sign, `digits`, `digits.digits?`, `.digits`, and an
optional exponent.  Special forms (`inf`, `nan`, underscore separators)
are not modelled; on them the source and this model both take the
fall-through/`None` path for every input reachable from the claims. -/
def pyFloatFull (cs₀ : List Char) : Option ℚ :=
  let cs := pyStrip cs₀
  let sr : ℚ × List Char :=
    match cs with
    | '+' :: r => (1, r)
    | '-' :: r => (-1, r)
    | _ => (1, cs)
  let ds := sr.2.takeWhile Char.isDigit
  let rest₂ := sr.2.dropWhile Char.isDigit
  match rest₂ with
  | '.' :: r₃ =>
    let fs := r₃.takeWhile Char.isDigit
    let r₄ := r₃.dropWhile Char.isDigit
    if ds = [] ∧ fs = [] then none
    else
      (parseExp ((natOfDigits ds : ℚ) + (natOfDigits fs : ℚ) / (10 : ℚ) ^ fs.length) r₄).map
        (fun v => sr.1 * v)
  | r₄ =>
    if ds = [] then none
    else (parseExp (natOfDigits ds : ℚ) r₄).map (fun v => sr.1 * v)

/-- Python `round` on a real value: round half to even. -/
def pyRound (q : ℚ) : ℤ :=
  let f := ⌊q⌋
  let r := q - (f : ℚ)
  if r < 1 / 2 then f
  else if 1 / 2 < r then f + 1
  else if f % 2 = 0 then f else f + 1

/-- `parse_budget_input` from `expert_system.py`.  Exact rationals stand
for Python floats (they agree on every value the claims touch). -/
def parse_budget_input (s : Option String) : Option ℤ :=
  match s with
  | none => none
  | some str₀ =>
    let s0 := pyClean str₀
    if s0 = [] then none
    else if containsSubL s0 "cr".data || containsSubL s0 "crore".data then
      (findFirstNum s0).map (fun v => pyRound (v * 10000000))
    else if (containsSubL s0 "lakh".data || containsSubL s0 "lakhs".data)
        && !endsWithL s0 "k".data then
      (findFirstNum s0).map (fun v => pyRound (v * 100000))
    else
      match
        (if endsWithL s0 "l".data && !endsWithL s0 "k".data
         then pyFloatFull s0.dropLast else none) with
      | some v => some (pyRound (v * 100000))
      | none =>
        if endsWithL s0 "k".data then
          (pyFloatFull s0.dropLast).map (fun v => pyRound (v * 1000))
        else
          match findFirstNum s0 with
          | none => none
          | some val =>
            if 100000 ≤ val then some (pyRound val)
            else if 1000 < val ∧ val < 100000 then some (pyRound val)
            else some (pyRound (val * 100000))

def baseAxes : List String :=
  ["axis_performance", "axis_economy", "axis_safety", "axis_comfort",
   "axis_ownership", "axis_price"]

/-- `soft_fuel and selected_fuel` (a `None` or empty selection is falsy). -/
def fuelActive (soft_fuel : Bool) (selected_fuel : Option String) : Bool :=
  soft_fuel && (match selected_fuel with
    | some s => !(s == "")
    | none => false)

/-- `soft_body and selected_body`. -/
def bodyActive (soft_body : Bool) (selected_body : Option String) : Bool :=
  soft_body && (match selected_body with
    | some s => !(s == "")
    | none => false)

/-- `(D.get("fuel_category", Series()).fillna("").astype(str) == selected_fuel).astype(float)`:
with the column absent the empty series aligns to an all-NaN column, which
the scoring loop's `fillna(0)` reads as zero. -/
def fuelPrefCol (t : Table) (sel : String) : List (Option ℚ) :=
  match getS t "fuel_category" with
  | some col => col.map (fun o => some (if (o.getD "") = sel then (1 : ℚ) else 0))
  | none => List.replicate t.nrows none

/-- `D.get("body_type", D.get("original_body_type", Series())).astype(str).str.strip().str.lower()`:
`astype(str)` renders a NaN cell as the string "nan"; with both columns
absent the assignment aligns to an all-NaN column. -/
def bodyCleanCol (t : Table) : List (Option String) :=
  match (getS t "body_type").orElse (fun _ => getS t "original_body_type") with
  | some col => col.map (fun o => some (((o.getD "nan").trim).toLower))
  | none => List.replicate t.nrows none

/-- `D["body_clean"].str.contains(re.escape(sel_body), na=False).astype(float)`:
`re.escape` makes the match a literal substring test; `na=False` scores a
missing cell 0. -/
def bodyPrefCol (col : List (Option String)) (sel : String) : List (Option ℚ) :=
  let selc := (sel.trim).toLower
  col.map (fun o => some (match o with
    | none => (0 : ℚ)
    | some s => if containsSubL s.data selc.data then 1 else 0))

/-- The table `D` of `recommend` just before scoring: axes ensured, then
the optional soft-preference axis columns added. -/
def prepD (df : Table) (soft_fuel soft_body : Bool)
    (selected_fuel selected_body : Option String) : Table :=
  let D := if baseAxes.all (fun a => hasN df a) then df else compute_axes df
  let D := if fuelActive soft_fuel selected_fuel then
      setN D "axis_fuel_pref" (fuelPrefCol D (selected_fuel.getD ""))
    else D
  if bodyActive soft_body selected_body then
    let D := setS D "body_clean" (bodyCleanCol D)
    setN D "axis_body_pref" (bodyPrefCol (bodyCleanCol D) (selected_body.getD ""))
  else D

/-- `axis_cols = base_axes + extra_axis_names`. -/
def axisNameList (fa ba : Bool) : List String :=
  baseAxes ++ (if fa then ["axis_fuel_pref"] else []) ++ (if ba then ["axis_body_pref"] else [])

/-- `weight_keys`, extended with the soft-preference keys when active. -/
def weightKeys (fa ba : Bool) : List String :=
  ["performance", "economy", "safety", "comfort", "ownership", "price"]
    ++ (if fa then ["fuel_pref"] else []) ++ (if ba then ["body_pref"] else [])

/-- `weights.get(k, 0.0)`. -/
def lookupW (weights : List (String × ℚ)) (k : String) : ℚ :=
  (weights.lookup k).getD 0

/-- The internal weight vector of `recommend`: look up each active key
(default 0), replace an all-zero-sum vector by all-ones, normalize to
sum 1. -/
def weightVec (weights : List (String × ℚ)) (keys : List String) : List ℚ :=
  let w := keys.map (lookupW weights)
  let w := if w.sum = 0 then List.replicate keys.length 1 else w
  w.map (fun x => x / w.sum)

/-- The scoring loop
`D["final_score"] += w[i] * D[col].fillna(0)` summed over the active
axis columns, per record. -/
def dotScores (D : Table) (axes : List String) (w : List ℚ) : List ℚ :=
  (List.range D.nrows).map (fun i =>
    ((axes.zip w).map (fun p => p.2 * ((getND D p.1).getD i none).getD 0)).sum)

def baseScoresOf (D : Table) (weights : List (String × ℚ)) (fa ba : Bool) : List ℚ :=
  dotScores D (axisNameList fa ba) (weightVec weights (weightKeys fa ba))

/-- `D["price_inr"].apply(lambda p: 0 if pd.isna(p) else max(0, (p - maxb) / (maxb + 1)))`. -/
def penaltyCol (price : List (Option ℚ)) (maxb : ℚ) (n : ℕ) : List ℚ :=
  (List.range n).map (fun i =>
    match price.getD i none with
    | none => (0 : ℚ)
    | some p => max 0 ((p - maxb) / (maxb + 1)))

/-- `D["final_score"] = D["final_score"] - 0.5 * D["budget_penalty"]`. -/
def applyPenalty (scores pen : List ℚ) : List ℚ :=
  List.zipWith (fun s p => s - 1 / 2 * p) scores pen

/-- `filters and filters.get("max_budget")`: the filter dict is modelled
by its optional `max_budget` entry; a zero value is falsy. -/
def truthyBudget (filters : Option ℚ) : Option ℚ :=
  match filters with
  | some b => if b = 0 then none else some b
  | none => none

/-- The scored (pre-sort) table of `recommend`, paired with the
`final_score` values in row order; `D["price_inr"]` with the column
absent is a `KeyError`. -/
def scoredTable (df : Table) (weights : List (String × ℚ)) (filters : Option ℚ)
    (soft_fuel soft_body : Bool) (selected_fuel selected_body : Option String) :
    Except String (Table × List ℚ) :=
  let D := prepD df soft_fuel soft_body selected_fuel selected_body
  let fa := fuelActive soft_fuel selected_fuel
  let ba := bodyActive soft_body selected_body
  let s := baseScoresOf D weights fa ba
  let D₁ := setN D "final_score" (s.map some)
  match truthyBudget filters with
  | none => Except.ok (D₁, s)
  | some maxb =>
    match getN D₁ "price_inr" with
    | none => Except.error "KeyError: price_inr"
    | some price =>
      let pen := penaltyCol price maxb D₁.nrows
      let s₂ := applyPenalty s pen
      Except.ok (setN (setN D₁ "budget_penalty" (pen.map some)) "final_score" (s₂.map some), s₂)

/-- The `final_score` column of the scored table, in original row order
(the value `recommend` sorts by). -/
def presortScores (df : Table) (weights : List (String × ℚ)) (filters : Option ℚ)
    (soft_fuel soft_body : Bool) (selected_fuel selected_body : Option String) :
    Except String (List ℚ) :=
  (scoredTable df weights filters soft_fuel soft_body selected_fuel selected_body).map
    (fun p => p.2)

/-- Stable descending insertion of a (score, row) pair. -/
def ordInsertDesc (a : ℚ × ℕ) : List (ℚ × ℕ) → List (ℚ × ℕ)
  | [] => [a]
  | b :: l => if b.1 ≤ a.1 then a :: b :: l else b :: ordInsertDesc a l

/-- Stable descending sort by score (`sort_values("final_score", ascending=False)`). -/
def insSortDesc : List (ℚ × ℕ) → List (ℚ × ℕ)
  | [] => []
  | a :: l => ordInsertDesc a (insSortDesc l)

/-- Reindex every column of `t` by the row indices `idx`. -/
def reindex (t : Table) (idx : List ℕ) : Table :=
  { nrows := idx.length,
    ncols := t.ncols.map (fun p => (p.1, idx.map (fun i => p.2.getD i none))),
    scols := t.scols.map (fun p => (p.1, idx.map (fun i => p.2.getD i none))) }

/-- The sorted row order of `t` under scores `s` (descending, stable). -/
def sortedIdx (s : List ℚ) (n : ℕ) : List ℕ :=
  (insSortDesc ((List.range n).map (fun i => (s.getD i 0, i)))).map (fun p => p.2)

/-- `D.sort_values("final_score", ascending=False).reset_index(drop=True)`. -/
def sortTable (t : Table) (s : List ℚ) : Table :=
  reindex t (sortedIdx s t.nrows)

/-- Keep the first `k` rows. -/
def takeRows (t : Table) (k : ℕ) : Table :=
  { nrows := min k t.nrows,
    ncols := t.ncols.map (fun p => (p.1, p.2.take k)),
    scols := t.scols.map (fun p => (p.1, p.2.take k)) }

/-- `DataFrame.head(n)` with Python semantics for a negative `n`
(all rows but the last `-n`). -/
def headZ (t : Table) (n : ℤ) : Table :=
  if 0 ≤ n then takeRows t n.toNat
  else takeRows t (t.nrows - (-n).toNat)

/-- `recommend` from `expert_system.py`.  The parameters
`soft_fuel_weight` and `soft_body_weight` are declared as in the source,
which never reads them. -/
def recommend (df : Table) (weights : List (String × ℚ)) (top_n : ℤ)
    (filters : Option ℚ) (soft_fuel soft_body : Bool)
    (selected_fuel selected_body : Option String)
    (soft_fuel_weight soft_body_weight : ℚ) : Except String Table :=
  (scoredTable df weights filters soft_fuel soft_body selected_fuel selected_body).map
    (fun p => headZ (sortTable p.1 p.2) top_n)

/-! Spec-side vocabulary: definitions phrased as the specification words
them, to be compared with the source-derived definitions above. -/

/-- The present (non-missing) values of a column. -/
def presentVals (s : List (Option ℚ)) : List ℚ := s.filterMap id

/-- The median-filled column of `normalize_series`. -/
def filledVals (s : List (Option ℚ)) : List ℚ :=
  s.map (fun o => o.getD (medianList (presentVals s)))

/-- "the median-filled column is constant". -/
def filledConstant (s : List (Option ℚ)) : Prop :=
  listMax (filledVals s) = listMin (filledVals s)

instance (s : List (Option ℚ)) : Decidable (filledConstant s) :=
  inferInstanceAs (Decidable (listMax (filledVals s) = listMin (filledVals s)))

/-- "degenerate (all-missing or constant column)". -/
def DegenerateCol (s : List (Option ℚ)) : Prop :=
  s.all Option.isNone = true ∨ filledConstant s

/-- Spec wording of a mean-based axis value for record `i`: "the
arithmetic mean across the normalized contributing columns present",
zero when none is present. -/
def specMeanAxis (t : Table) (srcs : List String) (i : ℕ) : ℚ :=
  let present := srcs.filter (fun c => hasN t c)
  if present = [] then 0
  else (present.map (fun c => (normalize_series (getND t c)).getD i 0)).sum /
    (present.length : ℚ)

/-- Spec wording of an inverted axis value for record `i`:
"1 − normalized (median-filled) column", zero when the column is absent. -/
def specInvAxis (t : Table) (c : String) (i : ℕ) : ℚ :=
  match getN t c with
  | none => 0
  | some col => 1 - (normalize_series (fillnaCol col (colMedian col))).getD i 0

/-- "ordered non-increasing by final_score" for a `final_score` column
(all of whose cells the engine fills). -/
def NonIncreasingScores (l : List (Option ℚ)) : Prop :=
  l.Pairwise (fun a b => b.getD 0 ≤ a.getD 0)

/-- The `final_score` column of a result table. -/
def finalScoresOf (t : Table) : List (Option ℚ) :=
  (getN t "final_score").getD []

/-! Concrete tables used as witnesses and counterexamples. -/

/-- A catalog with a known price column (two rows, prices 100 and 50). -/
def tPrice100 : Table :=
  Table.mk 2 [("price_inr", [some 100, some 50])] []

/-- A two-row catalog. -/
def tTwoRows : Table :=
  Table.mk 2 [("price_inr", [some 500000, some 1200000])] []

/-- A catalog whose price column is present but constant. -/
def tConstPrice : Table :=
  Table.mk 2 [("price_inr", [some 5, some 5])] []

/-- A catalog with no price column at all. -/
def tNoPrice : Table :=
  Table.mk 1 [("power_bhp", [some 100])] []

/-- The concrete result of ranking `tTwoRows` with `top_n = 1`. -/
def rW3 : Table :=
  match recommend tTwoRows [("price", 1)] 1 none false false none none 0 0 with
  | Except.ok t => t
  | Except.error _ => Table.mk 0 [] []

/-! Theorems. -/



set_option maxRecDepth 2000
set_option allowUnsafeReducibility true
attribute [local semireducible] Rat.add Rat.sub Rat.mul Rat.div Rat.neg Rat.inv Rat.blt

/-! Helper lemmas about the list primitives. -/

theorem listMin_cons (x y : ℚ) (rest : List ℚ) :
    listMin (x :: y :: rest) = min x (listMin (y :: rest)) := rfl

theorem listMax_cons (x y : ℚ) (rest : List ℚ) :
    listMax (x :: y :: rest) = max x (listMax (y :: rest)) := rfl

theorem listMin_le : ∀ (l : List ℚ), ∀ y ∈ l, listMin l ≤ y
  | [], y, hy => absurd hy (List.not_mem_nil y)
  | [x], y, hy => by
    rcases List.mem_singleton.mp hy with rfl
    exact le_refl (listMin [y])
  | x :: z :: rest, y, hy => by
    rw [listMin_cons]
    rcases List.mem_cons.mp hy with rfl | hmem
    · exact min_le_left _ _
    · exact le_trans (min_le_right _ _) (listMin_le (z :: rest) y hmem)

theorem le_listMax : ∀ (l : List ℚ), ∀ y ∈ l, y ≤ listMax l
  | [], y, hy => absurd hy (List.not_mem_nil y)
  | [x], y, hy => by
    rcases List.mem_singleton.mp hy with rfl
    exact le_refl (listMax [y])
  | x :: z :: rest, y, hy => by
    rw [listMax_cons]
    rcases List.mem_cons.mp hy with rfl | hmem
    · exact le_max_left _ _
    · exact le_trans (le_listMax (z :: rest) y hmem) (le_max_right _ _)

theorem listMin_mem : ∀ (l : List ℚ), l ≠ [] → listMin l ∈ l
  | [], h => absurd rfl h
  | [x], _ => List.mem_singleton.mpr rfl
  | x :: z :: rest, _ => by
    rw [listMin_cons]
    rcases min_cases x (listMin (z :: rest)) with ⟨he, _⟩ | ⟨he, _⟩
    · rw [he]; exact List.mem_cons_self x _
    · rw [he]; exact List.mem_cons_of_mem x (listMin_mem (z :: rest) (by simp))

theorem listMax_mem : ∀ (l : List ℚ), l ≠ [] → listMax l ∈ l
  | [], h => absurd rfl h
  | [x], _ => List.mem_singleton.mpr rfl
  | x :: z :: rest, _ => by
    rw [listMax_cons]
    rcases max_cases x (listMax (z :: rest)) with ⟨he, _⟩ | ⟨he, _⟩
    · rw [he]; exact List.mem_cons_self x _
    · rw [he]; exact List.mem_cons_of_mem x (listMax_mem (z :: rest) (by simp))

theorem getD_mem_of_lt {l : List ℚ} {i : ℕ} (h : i < l.length) (d : ℚ) :
    l.getD i d ∈ l := by
  rw [List.getD_eq_getElem l d h]
  exact List.getElem_mem h

/-- The median of a nonempty list lies between any lower bound and any
upper bound of the list. -/
theorem medianList_mem_Icc {l : List ℚ} (h : l ≠ []) {a b : ℚ}
    (ha : ∀ x ∈ l, a ≤ x) (hb : ∀ x ∈ l, x ≤ b) :
    a ≤ medianList l ∧ medianList l ≤ b := by
  have hlen : (l.mergeSort (fun x y => x ≤ y)).length = l.length := List.length_mergeSort _
  have hne : 0 < l.length := List.length_pos.mpr h
  have hmem : ∀ i, i < l.length → (l.mergeSort (fun x y => x ≤ y)).getD i 0 ∈ l := by
    intro i hi
    exact List.mem_mergeSort.mp (getD_mem_of_lt (by rw [hlen]; exact hi) 0)
  unfold medianList
  rcases Nat.even_or_odd l.length with he | ho
  · have h2 : l.length % 2 = 0 := Nat.even_iff.mp he
    rw [if_neg (by omega)]
    have hi1 : l.length / 2 - 1 < l.length := by omega
    have hi2 : l.length / 2 < l.length := by omega
    have m1 := hmem _ hi1
    have m2 := hmem _ hi2
    constructor
    · have := ha _ m1; have := ha _ m2; linarith
    · have := hb _ m1; have := hb _ m2; linarith
  · have h2 : l.length % 2 = 1 := Nat.odd_iff.mp ho
    rw [if_pos h2]
    have hi : l.length / 2 < l.length := by omega
    exact ⟨ha _ (hmem _ hi), hb _ (hmem _ hi)⟩

section NormalizeLemmas

/-- `normalize_series` written with the named spec vocabulary. -/
theorem normalize_series_eq (s : List (Option ℚ)) :
    normalize_series s =
      if s.all Option.isNone then List.replicate s.length 0
      else
        if listMax (filledVals s) = listMin (filledVals s) then List.replicate s.length 0
        else (filledVals s).map (fun v =>
          (v - listMin (filledVals s)) / (listMax (filledVals s) - listMin (filledVals s))) :=
  rfl

theorem filledVals_length (s : List (Option ℚ)) : (filledVals s).length = s.length := by
  simp [filledVals]

theorem normalize_series_length (s : List (Option ℚ)) :
    (normalize_series s).length = s.length := by
  rw [normalize_series_eq]
  split
  · simp
  · split
    · simp
    · simp [filledVals]

theorem normalize_series_allNone {s : List (Option ℚ)} (h : s.all Option.isNone = true) :
    normalize_series s = List.replicate s.length 0 := by
  rw [normalize_series_eq, if_pos h]

theorem normalize_series_const {s : List (Option ℚ)} (h : filledConstant s) :
    normalize_series s = List.replicate s.length 0 := by
  unfold filledConstant at h
  rw [normalize_series_eq, h]
  simp

theorem mem_presentVals {s : List (Option ℚ)} {v : ℚ} :
    v ∈ presentVals s ↔ some v ∈ s := by
  unfold presentVals
  rw [List.mem_filterMap]
  constructor
  · rintro ⟨a, ha, rfl⟩; exact ha
  · intro h; exact ⟨some v, h, rfl⟩

theorem le_filledVals {s : List (Option ℚ)} {v : ℚ} (hpne : presentVals s ≠ [])
    (hv : ∀ w ∈ presentVals s, v ≤ w) : ∀ w ∈ filledVals s, v ≤ w := by
  intro w hw
  rcases List.mem_map.mp hw with ⟨o, ho, rfl⟩
  cases o with
  | some u => exact hv u (mem_presentVals.mpr ho)
  | none =>
    exact (medianList_mem_Icc hpne hv (fun x hx => le_listMax _ x hx)).1

theorem filledVals_le {s : List (Option ℚ)} {v : ℚ} (hpne : presentVals s ≠ [])
    (hv : ∀ w ∈ presentVals s, w ≤ v) : ∀ w ∈ filledVals s, w ≤ v := by
  intro w hw
  rcases List.mem_map.mp hw with ⟨o, ho, rfl⟩
  cases o with
  | some u => exact hv u (mem_presentVals.mpr ho)
  | none =>
    exact (medianList_mem_Icc hpne (fun x hx => listMin_le _ x hx) hv).2

theorem normalize_series_mem_bounds {s : List (Option ℚ)} :
    ∀ x ∈ normalize_series s, 0 ≤ x ∧ x ≤ 1 := by
  intro x hx
  rw [normalize_series_eq] at hx
  split at hx
  · have := List.eq_of_mem_replicate hx
    subst this; exact ⟨le_refl 0, by norm_num⟩
  next hall =>
    split at hx
    next hconst =>
      have := List.eq_of_mem_replicate hx
      subst this; exact ⟨le_refl 0, by norm_num⟩
    next hne =>
      rcases List.mem_map.mp hx with ⟨v, hv, rfl⟩
      have hmnv := listMin_le _ v hv
      have hvmx := le_listMax _ v hv
      have hlt : listMin (filledVals s) < listMax (filledVals s) :=
        lt_of_le_of_ne (le_trans hmnv hvmx) (fun e => hne e.symm)
      constructor
      · exact div_nonneg (by linarith) (by linarith)
      · rw [div_le_one (by linarith)]; linarith

/-- A position holding the minimum present value is sent to 0 when the
filled column is non-constant. -/
theorem normalize_series_get_min {s : List (Option ℚ)} {i : ℕ} {v : ℚ}
    (hsi : s.get? i = some (some v)) (hnc : ¬ filledConstant s)
    (hmin : ∀ w ∈ presentVals s, v ≤ w) :
    (normalize_series s).get? i = some 0 := by
  have hvs : some v ∈ s := List.get?_mem hsi
  have hvp : v ∈ presentVals s := mem_presentVals.mpr hvs
  have hpne : presentVals s ≠ [] := fun h0 => by rw [h0] at hvp; exact (List.not_mem_nil v) hvp
  have hall : s.all Option.isNone = false := by
    apply Bool.eq_false_iff.mpr
    intro h
    have := List.all_eq_true.mp h _ hvs
    simp at this
  have hfi : (filledVals s).get? i = some v := by
    unfold filledVals
    rw [List.get?_map, hsi]
    rfl
  have hvf : v ∈ filledVals s := List.get?_mem hfi
  have hfne : filledVals s ≠ [] := fun h0 => by rw [h0] at hvf; exact (List.not_mem_nil v) hvf
  have hmn : listMin (filledVals s) = v :=
    le_antisymm (listMin_le _ v hvf)
      (le_filledVals hpne hmin _ (listMin_mem _ hfne))
  unfold filledConstant at hnc
  rw [normalize_series_eq, hall]
  simp only [Bool.false_eq_true, if_false]
  rw [if_neg hnc, List.get?_map, hfi]
  simp [hmn]

/-- A position holding the maximum present value is sent to 1 when the
filled column is non-constant. -/
theorem normalize_series_get_max {s : List (Option ℚ)} {i : ℕ} {v : ℚ}
    (hsi : s.get? i = some (some v)) (hnc : ¬ filledConstant s)
    (hmax : ∀ w ∈ presentVals s, w ≤ v) :
    (normalize_series s).get? i = some 1 := by
  have hvs : some v ∈ s := List.get?_mem hsi
  have hvp : v ∈ presentVals s := mem_presentVals.mpr hvs
  have hpne : presentVals s ≠ [] := fun h0 => by rw [h0] at hvp; exact (List.not_mem_nil v) hvp
  have hall : s.all Option.isNone = false := by
    apply Bool.eq_false_iff.mpr
    intro h
    have := List.all_eq_true.mp h _ hvs
    simp at this
  have hfi : (filledVals s).get? i = some v := by
    unfold filledVals
    rw [List.get?_map, hsi]
    rfl
  have hvf : v ∈ filledVals s := List.get?_mem hfi
  have hfne : filledVals s ≠ [] := fun h0 => by rw [h0] at hvf; exact (List.not_mem_nil v) hvf
  have hmx : listMax (filledVals s) = v :=
    le_antisymm (filledVals_le hpne hmax _ (listMax_mem _ hfne)) (le_listMax _ v hvf)
  have hsub : v - listMin (filledVals s) ≠ 0 := by
    intro h0
    exact hnc (by unfold filledConstant; rw [hmx]; linarith)
  unfold filledConstant at hnc
  rw [normalize_series_eq, hall]
  simp only [Bool.false_eq_true, if_false]
  rw [if_neg hnc, List.get?_map, hfi]
  simp only [Option.map_some']
  rw [hmx, div_self hsub]

end NormalizeLemmas

/-- C2: `normalize_series` returns a sequence of the same length and
order with every entry in [0,1]; with at least one present value and a
non-constant median-filled column, positions holding the minimum and
maximum input values map to 0 and 1; an all-missing or filled-constant
input yields all zeros; the result is total and deterministic (it is a
function). -/
theorem normalize_series_spec (s : List (Option ℚ)) :
    (normalize_series s).length = s.length ∧
    (∀ x ∈ normalize_series s, 0 ≤ x ∧ x ≤ 1) ∧
    ((s.all Option.isNone = true ∨ filledConstant s) →
      normalize_series s = List.replicate s.length 0) ∧
    (∀ i v, s.get? i = some (some v) → ¬ filledConstant s →
      ((∀ w ∈ presentVals s, v ≤ w) → (normalize_series s).get? i = some 0) ∧
      ((∀ w ∈ presentVals s, w ≤ v) → (normalize_series s).get? i = some 1)) := by
  refine ⟨normalize_series_length s, normalize_series_mem_bounds, ?_, ?_⟩
  · rintro (h | h)
    · exact normalize_series_allNone h
    · exact normalize_series_const h
  · intro i v hsi hnc
    exact ⟨fun hmin => normalize_series_get_min hsi hnc hmin,
           fun hmax => normalize_series_get_max hsi hnc hmax⟩

/-- Witness for C2 on concrete columns: in `[1, missing, 3]` the minimum
position maps to 0 and the maximum position to 1; the constant column
`[5, 5]` normalizes to zeros. -/
theorem normalize_series_spec_witness :
    (normalize_series [some 1, none, some 3]).get? 0 = some 0 ∧
    (normalize_series [some 1, none, some 3]).get? 2 = some 1 ∧
    normalize_series [some 5, some 5] = List.replicate 2 0 :=
  ⟨((normalize_series_spec [some 1, none, some 3]).2.2.2 0 1 rfl (by with_unfolding_all decide)).1 (by with_unfolding_all decide),
   ((normalize_series_spec [some 1, none, some 3]).2.2.2 2 3 rfl (by with_unfolding_all decide)).2 (by with_unfolding_all decide),
   (normalize_series_spec [some 5, some 5]).2.2.1 (Or.inr (by with_unfolding_all decide))⟩

section TableLemmas

theorem lookup_mem {α : Type} {l : List (String × α)} {k : String} {v : α}
    (h : l.lookup k = some v) : (k, v) ∈ l := by
  induction l with
  | nil => simp [List.lookup] at h
  | cons p rest ih =>
    rcases p with ⟨k₁, v₁⟩
    rw [List.lookup] at h
    cases hk : (k == k₁) with
    | true =>
      rw [hk] at h
      have hkk : k = k₁ := beq_iff_eq.mp hk
      cases h
      subst hkk
      exact List.mem_cons_self _ _
    | false =>
      rw [hk] at h
      exact List.mem_cons_of_mem _ (ih h)

theorem lookup_setPair_self {α : Type} (k : String) (v : α) (l : List (String × α)) :
    (setPair k v l).lookup k = some v := by
  induction l with
  | nil => simp [setPair, List.lookup]
  | cons p rest ih =>
    rcases p with ⟨k₁, v₁⟩
    by_cases h : k₁ = k
    · subst h
      simp [setPair, List.lookup]
    · rw [setPair, if_neg h, List.lookup]
      have : (k == k₁) = false := beq_eq_false_iff_ne.mpr (Ne.symm h)
      rw [this]
      exact ih

theorem lookup_setPair_ne {α : Type} (k c : String) (v : α) (l : List (String × α))
    (h : c ≠ k) : (setPair k v l).lookup c = l.lookup c := by
  induction l with
  | nil =>
    simp only [setPair, List.lookup]
    rw [beq_eq_false_iff_ne.mpr h]
  | cons p rest ih =>
    rcases p with ⟨k₁, v₁⟩
    by_cases hk : k₁ = k
    · subst hk
      rw [setPair, if_pos rfl, List.lookup, List.lookup,
        beq_eq_false_iff_ne.mpr h]
    · rw [setPair, if_neg hk, List.lookup, List.lookup]
      cases hc : (c == k₁) with
      | true => rfl
      | false => exact ih

theorem getN_setN_self (t : Table) (c : String) (v : List (Option ℚ)) :
    getN (setN t c v) c = some v :=
  lookup_setPair_self c v t.ncols

theorem getN_setN_ne (t : Table) (c c₁ : String) (v : List (Option ℚ)) (h : c ≠ c₁) :
    getN (setN t c₁ v) c = getN t c :=
  lookup_setPair_ne c₁ c v t.ncols h

theorem getN_setS (t : Table) (c c₁ : String) (v : List (Option String)) :
    getN (setS t c₁ v) c = getN t c := rfl

theorem wf_col_length {t : Table} {c : String} {col : List (Option ℚ)}
    (hw : wfT t = true) (h : getN t c = some col) : col.length = t.nrows := by
  have hmem : (c, col) ∈ t.ncols := lookup_mem h
  unfold wfT at hw
  rw [Bool.and_eq_true] at hw
  exact of_decide_eq_true (List.all_eq_true.mp hw.1 _ hmem)

theorem get?_eq_some_getD {α : Type} [Inhabited α] {l : List α} {i : ℕ}
    (h : i < l.length) : l.get? i = some (l.getD i default) := by
  rw [List.getD_eq_getElem l default h, List.get?_eq_getElem?, List.getElem?_eq_getElem h]

end TableLemmas

section ComputeAxesLemmas

theorem getN_compute_axes_perf (t : Table) :
    getN (compute_axes t) "axis_performance" = some ((axisFromCols t perfSrcCols).map some) := by
  unfold compute_axes
  rw [getN_setN_ne _ _ _ _ (by decide), getN_setN_ne _ _ _ _ (by decide),
    getN_setN_ne _ _ _ _ (by decide), getN_setN_ne _ _ _ _ (by decide),
    getN_setN_ne _ _ _ _ (by decide), getN_setN_self]

theorem getN_compute_axes_eco (t : Table) :
    getN (compute_axes t) "axis_economy" = some ((axisFromCols t ecoSrcCols).map some) := by
  unfold compute_axes
  rw [getN_setN_ne _ _ _ _ (by decide), getN_setN_ne _ _ _ _ (by decide),
    getN_setN_ne _ _ _ _ (by decide), getN_setN_ne _ _ _ _ (by decide), getN_setN_self]

theorem getN_compute_axes_safety (t : Table) :
    getN (compute_axes t) "axis_safety" = some ((axisFromCols t safetySrcCols).map some) := by
  unfold compute_axes
  rw [getN_setN_ne _ _ _ _ (by decide), getN_setN_ne _ _ _ _ (by decide),
    getN_setN_ne _ _ _ _ (by decide), getN_setN_self]

theorem getN_compute_axes_comfort (t : Table) :
    getN (compute_axes t) "axis_comfort" = some ((axisFromCols t comfortSrcCols).map some) := by
  unfold compute_axes
  rw [getN_setN_ne _ _ _ _ (by decide), getN_setN_ne _ _ _ _ (by decide), getN_setN_self]

theorem getN_compute_axes_ownership (t : Table) :
    getN (compute_axes t) "axis_ownership" =
      some ((invAxis t "service_cost_per_year_avg").map some) := by
  unfold compute_axes
  rw [getN_setN_ne _ _ _ _ (by decide), getN_setN_self]

theorem getN_compute_axes_price (t : Table) :
    getN (compute_axes t) "axis_price" = some ((invAxis t "price_inr").map some) := by
  unfold compute_axes
  rw [getN_setN_self]

theorem getN_compute_axes_other (t : Table) (c : String) (h : c ∉ baseAxes) :
    getN (compute_axes t) c = getN t c := by
  simp only [baseAxes, List.mem_cons, List.mem_singleton, not_or] at h
  obtain ⟨h₁, h₂, h₃, h₄, h₅, h₆⟩ := h
  unfold compute_axes
  rw [getN_setN_ne _ _ _ _ (by simpa using h₆), getN_setN_ne _ _ _ _ (by simpa using h₅),
    getN_setN_ne _ _ _ _ (by simpa using h₄), getN_setN_ne _ _ _ _ (by simpa using h₃),
    getN_setN_ne _ _ _ _ (by simpa using h₂), getN_setN_ne _ _ _ _ (by simpa using h₁)]

theorem axisFromCols_get (t : Table) (srcs : List String) (i : ℕ) (hi : i < t.nrows) :
    ((axisFromCols t srcs).map some).get? i = some (some (specMeanAxis t srcs i)) := by
  simp only [axisFromCols, specMeanAxis]
  by_cases h : srcs.filter (fun c => hasN t c) = []
  · rw [if_pos h, if_pos h, List.map_replicate, List.get?_eq_getElem?,
      List.getElem?_replicate, if_pos hi]
  · rw [if_neg h, if_neg h]
    unfold meanRows
    rw [List.get?_map, List.get?_map, List.get?_range hi]
    simp [List.map_map, List.length_map, Function.comp_def]

theorem fillnaCol_length (col : List (Option ℚ)) (v : Option ℚ) :
    (fillnaCol col v).length = col.length := by
  cases v <;> simp [fillnaCol]

theorem invAxis_get (t : Table) (c : String) (i : ℕ) (hw : wfT t = true)
    (hi : i < t.nrows) :
    ((invAxis t c).map some).get? i = some (some (specInvAxis t c i)) := by
  unfold invAxis specInvAxis
  cases hc : getN t c with
  | none =>
    rw [List.map_replicate, List.get?_eq_getElem?, List.getElem?_replicate, if_pos hi]
  | some col =>
    have hlen : (normalize_series (fillnaCol col (colMedian col))).length = t.nrows := by
      rw [normalize_series_length, fillnaCol_length]
      exact wf_col_length hw hc
    have hi2 : i < (normalize_series (fillnaCol col (colMedian col))).length := by
      rw [hlen]; exact hi
    rw [List.get?_map, List.get?_map, get?_eq_some_getD hi2]
    rfl

end ComputeAxesLemmas

/-- C1: `compute_axes` adds exactly the six axis columns (all six are
present afterwards and every other column is untouched), where per
record each mean-based axis is the arithmetic mean of the independently
normalized contributing columns present in the table (zero when none
is), and the ownership and price axes are 1 minus the normalized
median-filled service-cost and price columns (zero when absent). -/
theorem compute_axes_spec (t : Table) (hw : wfT t = true) :
    (∀ a ∈ baseAxes, hasN (compute_axes t) a = true) ∧
    (∀ c, c ∉ baseAxes → getN (compute_axes t) c = getN t c) ∧
    (∀ i, i < t.nrows →
      (getND (compute_axes t) "axis_performance").get? i =
        some (some (specMeanAxis t perfSrcCols i)) ∧
      (getND (compute_axes t) "axis_economy").get? i =
        some (some (specMeanAxis t ecoSrcCols i)) ∧
      (getND (compute_axes t) "axis_safety").get? i =
        some (some (specMeanAxis t safetySrcCols i)) ∧
      (getND (compute_axes t) "axis_comfort").get? i =
        some (some (specMeanAxis t comfortSrcCols i)) ∧
      (getND (compute_axes t) "axis_ownership").get? i =
        some (some (specInvAxis t "service_cost_per_year_avg" i)) ∧
      (getND (compute_axes t) "axis_price").get? i =
        some (some (specInvAxis t "price_inr" i))) := by
  refine ⟨?_, ?_, ?_⟩
  · intro a ha
    simp only [baseAxes, List.mem_cons, List.mem_singleton] at ha
    rcases ha with rfl | rfl | rfl | rfl | rfl | rfl | h
    · unfold hasN; rw [getN_compute_axes_perf]; rfl
    · unfold hasN; rw [getN_compute_axes_eco]; rfl
    · unfold hasN; rw [getN_compute_axes_safety]; rfl
    · unfold hasN; rw [getN_compute_axes_comfort]; rfl
    · unfold hasN; rw [getN_compute_axes_ownership]; rfl
    · unfold hasN; rw [getN_compute_axes_price]; rfl
    · exact absurd h (List.not_mem_nil a)
  · exact getN_compute_axes_other t
  · intro i hi
    refine ⟨?_, ?_, ?_, ?_, ?_, ?_⟩
    · rw [getND, getN_compute_axes_perf]
      exact axisFromCols_get t perfSrcCols i hi
    · rw [getND, getN_compute_axes_eco]
      exact axisFromCols_get t ecoSrcCols i hi
    · rw [getND, getN_compute_axes_safety]
      exact axisFromCols_get t safetySrcCols i hi
    · rw [getND, getN_compute_axes_comfort]
      exact axisFromCols_get t comfortSrcCols i hi
    · rw [getND, getN_compute_axes_ownership]
      exact invAxis_get t "service_cost_per_year_avg" i hw hi
    · rw [getND, getN_compute_axes_price]
      exact invAxis_get t "price_inr" i hw hi

/-- Witness for C1: the price axis of the concrete constant-price catalog
matches the spec formula at record 0. -/
theorem compute_axes_spec_witness :
    (getND (compute_axes tConstPrice) "axis_price").get? 0 =
      some (some (specInvAxis tConstPrice "price_inr" 0)) :=
  ((compute_axes_spec tConstPrice (by decide)).2.2 0 (by decide)).2.2.2.2.2

section DegenerateLemmas

theorem filterMap_id_nil_of_allNone {l : List (Option ℚ)}
    (h : l.all Option.isNone = true) : l.filterMap id = [] := by
  induction l with
  | nil => rfl
  | cons o rest ih =>
    simp only [List.all_cons, Bool.and_eq_true] at h
    cases o with
    | none => simpa using ih h.2
    | some v => simp at h

theorem normalize_series_degenerate {col : List (Option ℚ)} (h : DegenerateCol col) :
    normalize_series col = List.replicate col.length 0 := by
  rcases h with h | h
  · exact normalize_series_allNone h
  · exact normalize_series_const h

theorem filledVals_fillna (col : List (Option ℚ)) (x : ℚ) :
    filledVals (fillnaCol col (some x)) = col.map (fun o => o.getD x) := by
  unfold filledVals fillnaCol
  rw [List.map_map]
  rfl

/-- Filling a degenerate column with its own median and normalizing
still yields all zeros (the filled values are unchanged). -/
theorem normalize_fillna_degenerate {col : List (Option ℚ)} (h : DegenerateCol col) :
    normalize_series (fillnaCol col (colMedian col)) = List.replicate col.length 0 := by
  by_cases hall : col.all Option.isNone = true
  · have hm : colMedian col = none := by
      unfold colMedian
      rw [if_pos (filterMap_id_nil_of_allNone hall)]
    rw [hm]
    show normalize_series col = _
    exact normalize_series_allNone hall
  · rcases h with h | h
    · exact absurd h hall
    · have hpne : col.filterMap id ≠ [] := by
        intro h0
        apply hall
        rw [List.all_eq_true]
        intro o ho
        cases o with
        | none => rfl
        | some v =>
          have : v ∈ col.filterMap id := mem_presentVals.mpr ho
          rw [h0] at this
          exact absurd this (List.not_mem_nil v)
      have hm : colMedian col = some (medianList (presentVals col)) := by
        unfold colMedian
        rw [if_neg hpne]
        rfl
      rw [hm]
      have hfc : filledConstant (fillnaCol col (some (medianList (presentVals col)))) := by
        unfold filledConstant
        rw [filledVals_fillna]
        exact h
      rw [normalize_series_const hfc, fillnaCol_length]

theorem getD_replicate_zero (n i : ℕ) : (List.replicate n (0 : ℚ)).getD i 0 = 0 := by
  rcases lt_or_ge i n with h | h
  · rw [List.getD_eq_getElem _ _ (by simpa using h), List.getElem_replicate]
  · rw [List.getD_eq_default _ _ (by simpa using h)]

theorem axisFromCols_degenerate (t : Table) (srcs : List String) (hw : wfT t = true)
    (h : ∀ c ∈ srcs, ∀ col, getN t c = some col → DegenerateCol col) :
    axisFromCols t srcs = List.replicate t.nrows 0 := by
  simp only [axisFromCols]
  by_cases hp : srcs.filter (fun c => hasN t c) = []
  · rw [if_pos hp]
  · rw [if_neg hp]
    unfold meanRows
    refine List.eq_replicate_iff.mpr ⟨by simp, ?_⟩
    intro b hb
    rcases List.mem_map.mp hb with ⟨i, _, rfl⟩
    have hz : ∀ x ∈ ((srcs.filter (fun c => hasN t c)).map
        (fun c => normalize_series (getND t c))).map (fun c => c.getD i 0), x = 0 := by
      intro x hx
      rcases List.mem_map.mp hx with ⟨l, hl, rfl⟩
      rcases List.mem_map.mp hl with ⟨c, hc, rfl⟩
      have hcin : c ∈ srcs := (List.mem_filter.mp hc).1
      have hhas : hasN t c = true := (List.mem_filter.mp hc).2
      rcases Option.isSome_iff_exists.mp hhas with ⟨col, hcol⟩
      have hd : DegenerateCol col := h c hcin col hcol
      have : getND t c = col := by rw [getND, hcol]; rfl
      rw [this, normalize_series_degenerate hd, getD_replicate_zero]
    rw [List.sum_eq_zero hz, zero_div]

end DegenerateLemmas

/-- C8 amended: degenerate (all-missing or constant) contributing
columns yield the neutral zero value for the four mean-based axes
(performance, economy, safety, comfort); for the inverted ownership and
price axes a present but degenerate column yields the constant value
one (1 − 0), zero arising only when the column is absent. -/
theorem compute_axes_degenerate (t : Table) (hw : wfT t = true) :
    ((∀ c ∈ perfSrcCols, ∀ col, getN t c = some col → DegenerateCol col) →
      getN (compute_axes t) "axis_performance" =
        some (List.replicate t.nrows (some 0))) ∧
    ((∀ c ∈ ecoSrcCols, ∀ col, getN t c = some col → DegenerateCol col) →
      getN (compute_axes t) "axis_economy" = some (List.replicate t.nrows (some 0))) ∧
    ((∀ c ∈ safetySrcCols, ∀ col, getN t c = some col → DegenerateCol col) →
      getN (compute_axes t) "axis_safety" = some (List.replicate t.nrows (some 0))) ∧
    ((∀ c ∈ comfortSrcCols, ∀ col, getN t c = some col → DegenerateCol col) →
      getN (compute_axes t) "axis_comfort" = some (List.replicate t.nrows (some 0))) ∧
    (∀ col, getN t "service_cost_per_year_avg" = some col → DegenerateCol col →
      getN (compute_axes t) "axis_ownership" = some (List.replicate t.nrows (some 1))) ∧
    (∀ col, getN t "price_inr" = some col → DegenerateCol col →
      getN (compute_axes t) "axis_price" = some (List.replicate t.nrows (some 1))) := by
  have hinv : ∀ c col, getN t c = some col → DegenerateCol col →
      (invAxis t c).map some = List.replicate t.nrows (some 1) := by
    intro c col hc hd
    unfold invAxis
    rw [hc]
    show ((normalize_series (fillnaCol col (colMedian col))).map
      (fun x => 1 - x)).map some = List.replicate t.nrows (some 1)
    rw [normalize_fillna_degenerate hd, List.map_replicate, List.map_replicate,
      wf_col_length hw hc]
    norm_num
  refine ⟨?_, ?_, ?_, ?_, ?_, ?_⟩
  · intro h
    rw [getN_compute_axes_perf, axisFromCols_degenerate t _ hw h, List.map_replicate]
  · intro h
    rw [getN_compute_axes_eco, axisFromCols_degenerate t _ hw h, List.map_replicate]
  · intro h
    rw [getN_compute_axes_safety, axisFromCols_degenerate t _ hw h, List.map_replicate]
  · intro h
    rw [getN_compute_axes_comfort, axisFromCols_degenerate t _ hw h, List.map_replicate]
  · intro col hc hd
    rw [getN_compute_axes_ownership, hinv _ col hc hd]
  · intro col hc hd
    rw [getN_compute_axes_price, hinv _ col hc hd]

/-- Witness for C8 (amended): the constant price column of the concrete
two-car catalog produces the constant-one price axis. -/
theorem compute_axes_degenerate_witness :
    getN (compute_axes tConstPrice) "axis_price" =
      some (List.replicate tConstPrice.nrows (some 1)) :=
  (compute_axes_degenerate tConstPrice (by decide)).2.2.2.2.2
    [some 5, some 5] (by decide) (Or.inr (by with_unfolding_all decide))

section SortLemmas

theorem ordInsertDesc_length (a : ℚ × ℕ) : ∀ l, (ordInsertDesc a l).length = l.length + 1
  | [] => rfl
  | b :: l => by
    unfold ordInsertDesc
    split
    · simp
    · simp [ordInsertDesc_length a l]

theorem insSortDesc_length : ∀ l : List (ℚ × ℕ), (insSortDesc l).length = l.length
  | [] => rfl
  | a :: l => by
    unfold insSortDesc
    simp [ordInsertDesc_length, insSortDesc_length l]

theorem mem_ordInsertDesc {a b : ℚ × ℕ} : ∀ {l}, b ∈ ordInsertDesc a l ↔ b = a ∨ b ∈ l
  | [] => by simp [ordInsertDesc]
  | c :: l => by
    unfold ordInsertDesc
    split
    · simp only [List.mem_cons]
    · rw [List.mem_cons, mem_ordInsertDesc, List.mem_cons]
      tauto

theorem mem_insSortDesc {b : ℚ × ℕ} : ∀ {l}, b ∈ insSortDesc l ↔ b ∈ l
  | [] => Iff.rfl
  | a :: l => by
    unfold insSortDesc
    rw [mem_ordInsertDesc, mem_insSortDesc, List.mem_cons]

theorem pairwise_ordInsertDesc {a : ℚ × ℕ} : ∀ {l : List (ℚ × ℕ)},
    l.Pairwise (fun p q => q.1 ≤ p.1) →
    (ordInsertDesc a l).Pairwise (fun p q => q.1 ≤ p.1)
  | [], _ => List.pairwise_singleton _ a
  | b :: l, h => by
    unfold ordInsertDesc
    rcases List.pairwise_cons.mp h with ⟨hb, hl⟩
    split
    next hba =>
      refine List.pairwise_cons.mpr ⟨?_, h⟩
      intro q hq
      rcases List.mem_cons.mp hq with rfl | hq₂
      · exact hba
      · exact le_trans (hb q hq₂) hba
    next hba =>
      push_neg at hba
      refine List.pairwise_cons.mpr ⟨?_, pairwise_ordInsertDesc hl⟩
      intro q hq
      rcases mem_ordInsertDesc.mp hq with rfl | hq₂
      · exact le_of_lt hba
      · exact hb q hq₂

theorem pairwise_insSortDesc : ∀ l : List (ℚ × ℕ),
    (insSortDesc l).Pairwise (fun p q => q.1 ≤ p.1)
  | [] => List.Pairwise.nil
  | a :: l => pairwise_ordInsertDesc (pairwise_insSortDesc l)

/-- The reindexed `final_score` cells are exactly the sorted scores. -/
theorem sortedScores_column (s : List ℚ) (n : ℕ) (hlen : s.length = n) :
    (sortedIdx s n).map (fun i => (s.map some).getD i none) =
      (insSortDesc ((List.range n).map (fun i => (s.getD i 0, i)))).map
        (fun p => some p.1) := by
  unfold sortedIdx
  rw [List.map_map]
  apply List.map_congr_left
  intro p hp
  have hp₂ : p ∈ (List.range n).map (fun i => (s.getD i 0, i)) := mem_insSortDesc.mp hp
  rcases List.mem_map.mp hp₂ with ⟨i, hi, rfl⟩
  have hi₂ : i < n := List.mem_range.mp hi
  show (s.map some).getD i none = some (s.getD i 0)
  have hi₃ : i < (s.map some).length := by simpa [hlen] using hi₂
  rw [List.getD_eq_getElem _ _ hi₃, List.getElem_map,
    List.getD_eq_getElem s 0 (by rw [hlen]; exact hi₂)]

theorem nonIncreasing_sorted_column (s : List ℚ) (n : ℕ) (hlen : s.length = n) :
    NonIncreasingScores ((sortedIdx s n).map (fun i => (s.map some).getD i none)) := by
  rw [sortedScores_column s n hlen]
  unfold NonIncreasingScores
  rw [List.pairwise_map]
  apply List.Pairwise.imp ?_ (pairwise_insSortDesc _)
  intro p q h
  simpa using h

theorem lookup_map_value {α β : Type} (f : α → β) (l : List (String × α)) (k : String) :
    (l.map (fun p => (p.1, f p.2))).lookup k = (l.lookup k).map f := by
  induction l with
  | nil => rfl
  | cons p rest ih =>
    rcases p with ⟨k₁, v₁⟩
    simp only [List.map, List.lookup]
    cases hk : (k == k₁) with
    | true => rfl
    | false => exact ih

theorem getN_reindex (t : Table) (idx : List ℕ) (c : String) :
    getN (reindex t idx) c =
      (getN t c).map (fun col => idx.map (fun i => col.getD i none)) := by
  unfold reindex getN
  exact lookup_map_value (fun col => idx.map (fun i => col.getD i none)) t.ncols c

theorem getN_takeRows (t : Table) (k : ℕ) (c : String) :
    getN (takeRows t k) c = (getN t c).map (fun col => col.take k) := by
  unfold takeRows getN
  exact lookup_map_value (fun col => col.take k) t.ncols c

theorem sortedIdx_length (s : List ℚ) (n : ℕ) : (sortedIdx s n).length = n := by
  unfold sortedIdx
  rw [List.length_map, insSortDesc_length, List.length_map, List.length_range]

theorem sortTable_nrows (t : Table) (s : List ℚ) : (sortTable t s).nrows = t.nrows :=
  sortedIdx_length s t.nrows

theorem prepD_nrows (df : Table) (sf sb : Bool) (sfv sbv : Option String) :
    (prepD df sf sb sfv sbv).nrows = df.nrows := by
  simp only [prepD]
  split <;> split <;> split <;> rfl

theorem headZ_nrows (t : Table) (z : ℤ) :
    (headZ t z).nrows = if 0 ≤ z then min z.toNat t.nrows else t.nrows - (-z).toNat := by
  unfold headZ
  split
  next h => rfl
  next h => exact min_eq_left (Nat.sub_le _ _)

theorem baseScoresOf_length (D : Table) (w : List (String × ℚ)) (fa ba : Bool) :
    (baseScoresOf D w fa ba).length = D.nrows := by
  unfold baseScoresOf dotScores
  rw [List.length_map, List.length_range]

theorem penaltyCol_length (price : List (Option ℚ)) (maxb : ℚ) (n : ℕ) :
    (penaltyCol price maxb n).length = n := by
  unfold penaltyCol
  rw [List.length_map, List.length_range]

theorem applyPenalty_length (s pen : List ℚ) :
    (applyPenalty s pen).length = min s.length pen.length := by
  unfold applyPenalty
  rw [List.length_zipWith]

theorem getD_map_take (o : Option (List (Option ℚ))) (k : ℕ) :
    (o.map (fun col => col.take k)).getD [] = (o.getD []).take k := by
  cases o <;> simp

/-- Structure of a successful `scoredTable` result: row count preserved,
scores in bijection with rows, and the `final_score` column holding
exactly those scores. -/
theorem scored_penalty_length (D : Table) (w : List (String × ℚ)) (fa ba : Bool)
    (price : List (Option ℚ)) (maxb : ℚ) :
    (applyPenalty (baseScoresOf D w fa ba)
      (penaltyCol price maxb
        (setN D "final_score" ((baseScoresOf D w fa ba).map some)).nrows)).length =
      D.nrows := by
  rw [applyPenalty_length, baseScoresOf_length, penaltyCol_length]
  exact Nat.min_self D.nrows

theorem scoredTable_ok {df : Table} {weights : List (String × ℚ)} {filters : Option ℚ}
    {sf sb : Bool} {sfv sbv : Option String} {p : Table × List ℚ}
    (h : scoredTable df weights filters sf sb sfv sbv = Except.ok p) :
    p.1.nrows = df.nrows ∧ p.2.length = df.nrows ∧
      getN p.1 "final_score" = some (p.2.map some) := by
  simp only [scoredTable] at h
  split at h
  · -- no budget filter
    injection h with h₁
    subst h₁
    exact ⟨prepD_nrows df sf sb sfv sbv,
      (baseScoresOf_length _ _ _ _).trans (prepD_nrows df sf sb sfv sbv),
      getN_setN_self _ _ _⟩
  next maxb htb =>
    -- budget filter active
    split at h
    · exact absurd h (by simp)
    next price hpr =>
      injection h with h₁
      subst h₁
      exact ⟨prepD_nrows df sf sb sfv sbv,
        (scored_penalty_length (prepD df sf sb sfv sbv) weights
          (fuelActive sf sfv) (bodyActive sb sbv) price maxb).trans
          (prepD_nrows df sf sb sfv sbv),
        getN_setN_self _ _ _⟩

end SortLemmas

/-- C3 amended: a successful `recommend` result has
`min(top_n, nrows)` records for `top_n ≥ 0` (empty for `top_n = 0`) and
`max(0, nrows + top_n)` records for `top_n < 0` (pandas `head` keeps all
but the last `-top_n` records, so a negative `top_n` need not give an
empty result), and is ordered non-increasing by `final_score`. -/
theorem recommend_length_sorted (df : Table) (weights : List (String × ℚ))
    (top_n : ℤ) (filters : Option ℚ) (sf sb : Bool) (sfv sbv : Option String)
    (sfw sbw : ℚ) (r : Table)
    (hr : recommend df weights top_n filters sf sb sfv sbv sfw sbw = Except.ok r) :
    (0 ≤ top_n → r.nrows = min top_n.toNat df.nrows) ∧
    (top_n < 0 → r.nrows = df.nrows - (-top_n).toNat) ∧
    NonIncreasingScores (finalScoresOf r) := by
  unfold recommend at hr
  cases hst : scoredTable df weights filters sf sb sfv sbv with
  | error e =>
    rw [hst] at hr
    exact absurd hr (by simp [Except.map])
  | ok p =>
    rw [hst] at hr
    simp only [Except.map] at hr
    injection hr with hr₁
    subst hr₁
    obtain ⟨hn₁, hn₂, hfs⟩ := scoredTable_ok hst
    refine ⟨?_, ?_, ?_⟩
    · intro hpos
      rw [headZ_nrows, if_pos hpos, sortTable_nrows, hn₁]
    · intro hneg
      rw [headZ_nrows, if_neg (not_le.mpr hneg), sortTable_nrows, hn₁]
    · have hcol : finalScoresOf (sortTable p.1 p.2) =
          (sortedIdx p.2 p.1.nrows).map (fun i => (p.2.map some).getD i none) := by
        unfold finalScoresOf sortTable
        rw [getN_reindex, hfs]
        rfl
      have hni : NonIncreasingScores (finalScoresOf (sortTable p.1 p.2)) := by
        rw [hcol, hn₁]
        exact nonIncreasing_sorted_column p.2 df.nrows hn₂
      have htake : ∀ k, NonIncreasingScores (finalScoresOf (takeRows (sortTable p.1 p.2) k)) := by
        intro k
        have he : finalScoresOf (takeRows (sortTable p.1 p.2) k) =
            (finalScoresOf (sortTable p.1 p.2)).take k := by
          unfold finalScoresOf
          rw [getN_takeRows, getD_map_take]
        rw [he]
        exact hni.sublist (List.take_sublist k _)
      unfold headZ
      split
      · exact htake _
      · exact htake _

/-- Witness for C3 (amended): on the concrete two-car catalog with
`top_n = 1`, the result has `min 1 2 = 1` record. -/
theorem recommend_length_sorted_witness :
    rW3.nrows = min (1 : ℤ).toNat tTwoRows.nrows :=
  (recommend_length_sorted tTwoRows [("price", 1)] 1 none false false none none 0 0 rW3
    (by decide)).1 (by decide)

section PenaltyLemmas

theorem getD_range_map {α : Type} (g : ℕ → α) (d : α) {n i : ℕ} (h : i < n) :
    ((List.range n).map g).getD i d = g i := by
  rw [List.getD_eq_getElem _ _ (by simpa using h), List.getElem_map, List.getElem_range]

theorem getD_zipWith {f : ℚ → ℚ → ℚ} {a b : List ℚ} {i : ℕ}
    (ha : i < a.length) (hb : i < b.length) :
    (List.zipWith f a b).getD i 0 = f (a.getD i 0) (b.getD i 0) := by
  rw [List.getD_eq_getElem _ _ (by rw [List.length_zipWith]; omega),
    List.getElem_zipWith, List.getD_eq_getElem _ _ ha, List.getD_eq_getElem _ _ hb]

theorem truthyBudget_pos {maxb : ℚ} (h : 0 < maxb) :
    truthyBudget (some maxb) = some maxb := by
  show (if maxb = 0 then none else some maxb) = some maxb
  rw [if_neg (ne_of_gt h)]

theorem setN_nrows (t : Table) (c : String) (v : List (Option ℚ)) :
    (setN t c v).nrows = t.nrows := rfl

end PenaltyLemmas

/-- C5 amended: whenever a positive maximum-budget filter value is
supplied, every record with a known price strictly above `max_budget`
has its pre-sort `final_score` strictly decreased by exactly
`0.5 × (price − max_budget)/(max_budget + 1)` relative to the
unpenalized dot-product score, while records priced at or below the
budget, or with unknown price, keep their score unchanged.  (A budget
value of 0 is falsy in `filters.get("max_budget")` and skips the
penalty entirely, so the original "whenever supplied" is amended to
"whenever positive".) -/
theorem budget_penalty_spec (df : Table) (weights : List (String × ℚ)) (maxb : ℚ)
    (sf sb : Bool) (sfv sbv : Option String) (s₀ s₁ : List ℚ)
    (price : List (Option ℚ)) (i : ℕ)
    (hmb : 0 < maxb) (hi : i < df.nrows)
    (hp : getN (prepD df sf sb sfv sbv) "price_inr" = some price)
    (h₀ : presortScores df weights none sf sb sfv sbv = Except.ok s₀)
    (h₁ : presortScores df weights (some maxb) sf sb sfv sbv = Except.ok s₁) :
    (∀ v, price.getD i none = some v → maxb < v →
      s₁.getD i 0 = s₀.getD i 0 - 1 / 2 * ((v - maxb) / (maxb + 1)) ∧
      s₁.getD i 0 < s₀.getD i 0) ∧
    (∀ v, price.getD i none = some v → v ≤ maxb → s₁.getD i 0 = s₀.getD i 0) ∧
    (price.getD i none = none → s₁.getD i 0 = s₀.getD i 0) := by
  simp only [presortScores, scoredTable, truthyBudget, Except.map] at h₀ h₁
  injection h₀ with hs₀
  rw [if_neg (ne_of_gt hmb)] at h₁
  split at h₁
  next hpr =>
    rw [getN_setN_ne _ _ _ _ (by decide), hp] at hpr
    exact absurd hpr (by simp)
  next price₂ hpr =>
    rw [getN_setN_ne _ _ _ _ (by decide), hp] at hpr
    injection hpr with hpe
    injection h₁ with hs₁
    subst hpe
    subst hs₀
    subst hs₁
    set D := prepD df sf sb sfv sbv with hD
    set s := baseScoresOf D weights (fuelActive sf sfv) (bodyActive sb sbv) with hs
    have hslen : s.length = df.nrows := by
      rw [hs, baseScoresOf_length, hD, prepD_nrows]
    have hnr : (setN D "final_score" (s.map some)).nrows = df.nrows := by
      rw [setN_nrows, hD, prepD_nrows]
    have hplen : (penaltyCol price maxb (setN D "final_score" (s.map some)).nrows).length
        = df.nrows := by
      rw [penaltyCol_length, hnr]
    have hzip : (applyPenalty s (penaltyCol price maxb
        (setN D "final_score" (s.map some)).nrows)).getD i 0 =
        s.getD i 0 - 1 / 2 * ((penaltyCol price maxb
          (setN D "final_score" (s.map some)).nrows).getD i 0) := by
      unfold applyPenalty
      exact getD_zipWith (by rw [hslen]; exact hi) (by rw [hplen]; exact hi)
    have hpen : (penaltyCol price maxb (setN D "final_score" (s.map some)).nrows).getD i 0 =
        match price.getD i none with
        | none => (0 : ℚ)
        | some p => max 0 ((p - maxb) / (maxb + 1)) := by
      unfold penaltyCol
      exact getD_range_map _ _ (by rw [hnr]; exact hi)
    have hden : (0 : ℚ) < maxb + 1 := by linarith
    refine ⟨?_, ?_, ?_⟩
    · intro v hv hlt
      have hpv : (penaltyCol price maxb
          (setN D "final_score" (s.map some)).nrows).getD i 0 =
          max 0 ((v - maxb) / (maxb + 1)) := by
        rw [hpen, hv]
      have hpos : 0 < (v - maxb) / (maxb + 1) := div_pos (by linarith) hden
      have hmax : max 0 ((v - maxb) / (maxb + 1)) = (v - maxb) / (maxb + 1) :=
        max_eq_right (le_of_lt hpos)
      constructor
      · rw [hzip, hpv, hmax]
      · rw [hzip, hpv, hmax]
        have h2 : 0 < 1 / 2 * ((v - maxb) / (maxb + 1)) := by linarith
        linarith
    · intro v hv hle
      have hnp : (v - maxb) / (maxb + 1) ≤ 0 :=
        div_nonpos_of_nonpos_of_nonneg (by linarith) (le_of_lt hden)
      have hpv : (penaltyCol price maxb
          (setN D "final_score" (s.map some)).nrows).getD i 0 = 0 := by
        rw [hpen, hv]
        exact max_eq_left hnp
      rw [hzip, hpv]
      ring
    · intro hv
      have hpv : (penaltyCol price maxb
          (setN D "final_score" (s.map some)).nrows).getD i 0 = 0 := by
        rw [hpen, hv]
      rw [hzip, hpv]
      ring

/-- Witness for C5 (amended): on the concrete two-car catalog with
budget 1,000,000, the car priced 1,200,000 has its pre-sort score cut by
exactly 0.5 × 200,000/1,000,001 (from 0 to −100,000/1,000,001), a strict
decrease. -/
theorem budget_penalty_spec_witness :
    ([(1 : ℚ), -100000 / 1000001].getD 1 0 =
      [(1 : ℚ), 0].getD 1 0 - 1 / 2 * ((1200000 - 1000000) / (1000000 + 1)) ∧
     [(1 : ℚ), -100000 / 1000001].getD 1 0 < [(1 : ℚ), 0].getD 1 0) :=
  (budget_penalty_spec tTwoRows [("price", 1)] 1000000 false false none none
    [1, 0] [1, -100000 / 1000001] [some 500000, some 1200000] 1
    (by norm_num) (by decide) (by decide) (by decide) (by decide)).1
    1200000 (by decide) (by norm_num)

/-- C6: `parse_budget_input` satisfies all seven specified input/output
pairs: "10" ↦ 1,000,000; "10.5" ↦ 1,050,000; "100k" ↦ 100,000;
"1.2cr" ↦ 12,000,000; "₹12.5" ↦ 1,250,000; the empty string ↦ absent;
"50000" ↦ 50,000. -/
theorem parse_budget_seven_vectors :
    parse_budget_input (some "10") = some 1000000 ∧
    parse_budget_input (some "10.5") = some 1050000 ∧
    parse_budget_input (some "100k") = some 100000 ∧
    parse_budget_input (some "1.2cr") = some 12000000 ∧
    parse_budget_input (some "₹12.5") = some 1250000 ∧
    parse_budget_input (some "") = none ∧
    parse_budget_input (some "50000") = some 50000 := by
  decide

/-- C9 counterexample: the literal 1,000 does not take the absolute
branch — `parse_budget_input "1000"` is not 1,000 (the guard
`1000 < val < 100000` is strict, so 1,000 falls through to the lakh
branch). -/
theorem parse_budget_1000_not_absolute :
    parse_budget_input (some "1000") ≠ some 1000 := by
  decide

/-- C9 amended: an input whose first numeric literal is exactly 1,000
falls to the lakh branch of the no-suffix case, so
`parse_budget_input "1000"` returns 1,000 × 100,000 = 100,000,000. -/
theorem parse_budget_1000_is_lakh :
    parse_budget_input (some "1000") = some 100000000 := by
  decide

/-- C7: with the price column entirely absent and a maximum-budget
filter supplied, `recommend` does not complete with a result — the
direct `D["price_inr"]` subscript raises a `KeyError`, contradicting
the contract that entirely missing attribute columns are never fatal. -/
theorem recommend_no_price_column_raises :
    recommend tNoPrice [] 20 (some 1000000) false false none none 0 0 =
      Except.error "KeyError: price_inr" := by
  decide

/-- C8 counterexample: on a catalog whose price column is present but
constant, the inverted price axis computed by `compute_axes` is the
constant one — not the neutral zero the claim states. -/
theorem constant_price_axis_is_one :
    getN (compute_axes tConstPrice) "axis_price" = some [some 1, some 1] ∧
    getN (compute_axes tConstPrice) "axis_price" ≠ some [some 0, some 0] := by
  decide

/-- C5 counterexample: supplying the maximum-budget filter value 0 is
falsy in `filters.get("max_budget")`, so the penalty branch is skipped:
the output (its `final_score` column included) is identical to the run
without any budget filter, although record 0 has known price 100 > 0 and
the claim demands a strict decrease by 0.5 × max(0, (100 − 0)/(0 + 1)) = 50. -/
theorem budget_zero_skips_penalty :
    recommend tPrice100 [("price", 1)] 5 (some 0) false false none none 0 0 =
      recommend tPrice100 [("price", 1)] 5 none false false none none 0 0 ∧
    getN tPrice100 "price_inr" = some [some 100, some 50] ∧
    (0 : ℚ) < 100 ∧
    (1 / 2 : ℚ) * max 0 ((100 - 0) / (0 + 1)) ≠ 0 := by
  decide

/-- C3 counterexample: for a negative `top_n`, the result is not empty:
`head(-1)` on a two-record catalog keeps one record. -/
theorem negative_top_n_not_empty :
    (recommend tTwoRows [] (-1) none false false none none 0 0).map Table.nrows =
      Except.ok 1 := by
  decide

section WeightLemmas

theorem weightKeys_ne_nil (fa ba : Bool) : weightKeys fa ba ≠ [] := by
  cases fa <;> cases ba <;> simp [weightKeys]

/-- Dividing a list of constant sum by that sum yields total weight 1. -/
theorem sum_map_div_self (l : List ℚ) (h : l.sum ≠ 0) :
    (l.map (fun x => x / l.sum)).sum = 1 := by
  have e : (l.map (fun x => x / l.sum)).sum = l.sum * l.sum⁻¹ := by
    simp [div_eq_mul_inv, List.sum_map_mul_right]
  rw [e]
  exact mul_inv_cancel₀ h

theorem weightVec_sum_eq_one (w : List (String × ℚ)) (keys : List String)
    (hkeys : keys ≠ []) : (weightVec w keys).sum = 1 := by
  simp only [weightVec]
  by_cases h : (keys.map (lookupW w)).sum = 0
  · rw [if_pos h]
    apply sum_map_div_self
    rw [List.sum_replicate, nsmul_eq_mul, mul_one]
    have h1 : keys.length ≠ 0 := fun h0 => hkeys (List.length_eq_zero.mp h0)
    exact_mod_cast h1
  · rw [if_neg h]
    exact sum_map_div_self _ h

theorem weightVec_zero_eq_uniform (w₀ wu : List (String × ℚ)) (keys : List String) (c : ℚ)
    (hkeys : keys ≠ []) (hc : 0 < c)
    (h₀ : ∀ k ∈ keys, lookupW w₀ k = 0)
    (hu : ∀ k ∈ keys, lookupW wu k = c) :
    weightVec w₀ keys = weightVec wu keys := by
  have hlen : (keys.length : ℚ) ≠ 0 := by
    have : keys.length ≠ 0 := fun h0 => hkeys (List.length_eq_zero.mp h0)
    exact_mod_cast this
  have e₀ : keys.map (lookupW w₀) = List.replicate keys.length 0 :=
    List.eq_replicate_iff.mpr ⟨by simp, by
      intro b hb; rcases List.mem_map.mp hb with ⟨k, hk, rfl⟩; exact h₀ k hk⟩
  have eu : keys.map (lookupW wu) = List.replicate keys.length c :=
    List.eq_replicate_iff.mpr ⟨by simp, by
      intro b hb; rcases List.mem_map.mp hb with ⟨k, hk, rfl⟩; exact hu k hk⟩
  simp only [weightVec]
  rw [e₀, eu]
  rw [if_pos (by simp), if_neg (by
    rw [List.sum_replicate, nsmul_eq_mul]
    exact mul_ne_zero hlen (ne_of_gt hc))]
  rw [List.map_replicate, List.map_replicate, List.sum_replicate, List.sum_replicate,
    nsmul_eq_mul, nsmul_eq_mul, mul_one]
  congr 1
  rw [div_eq_div_iff hlen (mul_ne_zero hlen (ne_of_gt hc))]
  ring

end WeightLemmas

/-- C4: ranking with a weight map whose every active weight is zero (or
absent) gives exactly the same result as ranking with any uniform
positive weight map over the active axes; internally the weight vector is
normalized to sum 1 (the all-zero vector being first replaced by
all-ones). -/
theorem recommend_zero_weights_uniform
    (df : Table) (w₀ wu : List (String × ℚ)) (top_n : ℤ) (filters : Option ℚ)
    (soft_fuel soft_body : Bool) (selected_fuel selected_body : Option String)
    (sfw sbw : ℚ) (c : ℚ) (hc : 0 < c)
    (h₀ : ∀ k ∈ weightKeys (fuelActive soft_fuel selected_fuel)
      (bodyActive soft_body selected_body), lookupW w₀ k = 0)
    (hu : ∀ k ∈ weightKeys (fuelActive soft_fuel selected_fuel)
      (bodyActive soft_body selected_body), lookupW wu k = c) :
    recommend df w₀ top_n filters soft_fuel soft_body selected_fuel selected_body sfw sbw =
      recommend df wu top_n filters soft_fuel soft_body selected_fuel selected_body sfw sbw ∧
    (weightVec w₀ (weightKeys (fuelActive soft_fuel selected_fuel)
      (bodyActive soft_body selected_body))).sum = 1 := by
  have hvec := weightVec_zero_eq_uniform w₀ wu
    (weightKeys (fuelActive soft_fuel selected_fuel) (bodyActive soft_body selected_body))
    c (weightKeys_ne_nil _ _) hc h₀ hu
  constructor
  · simp only [recommend, scoredTable, baseScoresOf]
    rw [hvec]
  · exact weightVec_sum_eq_one _ _ (weightKeys_ne_nil _ _)

/-- Witness for C4: on a concrete two-car catalog, the empty weight map
(all weights absent, hence zero) ranks identically to the uniform map
giving every base axis weight 3. -/
theorem recommend_zero_weights_uniform_witness :
    recommend tTwoRows [] 20 none false false none none 0 0 =
      recommend tTwoRows
        [("performance", 3), ("economy", 3), ("safety", 3), ("comfort", 3),
         ("ownership", 3), ("price", 3)] 20 none false false none none 0 0 :=
  (recommend_zero_weights_uniform tTwoRows []
    [("performance", 3), ("economy", 3), ("safety", 3), ("comfort", 3),
     ("ownership", 3), ("price", 3)] 20 none false false none none 0 0 3
    (by norm_num) (by decide) (by decide)).1

/-- C10: `recommend` never reads its `soft_fuel_weight` and
`soft_body_weight` parameters (the weights actually used come from the
weight map under "fuel_pref" and "body_pref"), so two invocations
differing only in those two arguments return identical tables. -/
theorem recommend_ignores_soft_weight_params
    (df : Table) (weights : List (String × ℚ)) (top_n : ℤ) (filters : Option ℚ)
    (soft_fuel soft_body : Bool) (selected_fuel selected_body : Option String)
    (w₁ w₂ w₃ w₄ : ℚ) :
    recommend df weights top_n filters soft_fuel soft_body selected_fuel selected_body w₁ w₂ =
      recommend df weights top_n filters soft_fuel soft_body selected_fuel selected_body w₃ w₄ :=
  rfl

end CarRec
